import Mathlib

/-!
Verification development for the FaceFlow face-recognition scripts
(`recognize_1755929175698.py` and `train_1755929175701.py`).

The recognition pipeline (`process_single_image`) is embedded over exact
rationals.  Floating-point numerics are modelled by exact arithmetic: the
cosine-similarity scores consumed by the matching loop are abstracted into a
parameter `sim : List ℚ → List ℚ → ℚ` (standing for `cosine_similarity`
applied to the renormalized probe embedding), because every property of the
matcher proved below is a property of its control flow that holds for an
arbitrary similarity function.  The numeric function `cosine_similarity`
itself, together with the enrollment aggregation of `train`'s `main`, is
embedded over the reals in a later section, where the square roots of
`np.linalg.norm` live.
-/

/-- Bounding box of a face detection, `[x1, y1, x2, y2]` as in
`face.bbox` (exact-rational model of the float coordinates). -/
structure BBoxQ where
  x1 : ℚ
  y1 : ℚ
  x2 : ℚ
  y2 : ℚ
deriving DecidableEq, Repr

/-- One face detection as produced by `app.get`: a bounding box and an
embedding vector (`face.normed_embedding`). -/
structure Face where
  bbox : BBoxQ
  embedding : List ℚ
deriving DecidableEq, Repr

/-- One entry of the `detections` list built by `process_single_image`
(lines 148-154 of recognize). -/
structure DetectionRecord where
  imageIndex : Nat
  faceIndex : Nat
  bbox : List Int
  confidence : ℚ
  studentId : Option String
deriving DecidableEq, Repr

/-- Truncation toward zero, the semantics of numpy's `astype(int)` on the
box coordinates (line 120 of recognize). -/
def truncQ (q : ℚ) : Int :=
  q.num.tdiv q.den

/-- The `bbox = face.bbox.astype(int).tolist()` conversion (line 120). -/
def bboxInts (b : BBoxQ) : List Int :=
  [truncQ b.x1, truncQ b.y1, truncQ b.x2, truncQ b.y2]

/-- Rectangle area `(x2 - x1) * (y2 - y1)` (lines 102-103 of recognize). -/
def boxArea (b : BBoxQ) : ℚ :=
  (b.x2 - b.x1) * (b.y2 - b.y1)

/-- Intersection area of two boxes (lines 99-100 of recognize):
`max(0, min(x2, x2') - max(x1, x1')) * max(0, min(y2, y2') - max(y1, y1'))`. -/
def interArea (b c : BBoxQ) : ℚ :=
  max 0 (min b.x2 c.x2 - max b.x1 c.x1) * max 0 (min b.y2 c.y2 - max b.y1 c.y1)

/-- Overlap measure of two boxes (line 105 of recognize): intersection area
divided by the smaller of the two box areas. -/
def overlapFrac (b c : BBoxQ) : ℚ :=
  interArea b c / min (boxArea b) (boxArea c)

/-- The duplicate test of the dedup loop (lines 95-107): the candidate is a
duplicate when its overlap with some already-accepted detection exceeds the
`overlap_threshold = 0.7`. -/
def isDuplicate (f : Face) (uniques : List Face) : Bool :=
  uniques.any fun u => overlapFrac f.bbox u.bbox > 7 / 10

/-- One iteration of the outer dedup loop (lines 91-110): keep the candidate
unless it duplicates an accepted one; accepted faces are appended in order. -/
def dedupStep (acc : List Face) (f : Face) : List Face :=
  if isDuplicate f acc then acc else acc ++ [f]

/-- The `unique_faces` computation (lines 89-110 of recognize): fold the
pooled detections in discovery order, first-seen wins. -/
def dedup (faces : List Face) : List Face :=
  faces.foldl dedupStep []

/-- Squared Euclidean norm of a rational vector; the guard
`np.linalg.norm(embedding) > 0` (line 124) is equivalent to
`0 < normSqQ embedding` in exact arithmetic. -/
def normSqQ (a : List ℚ) : ℚ :=
  (List.zipWith (fun x y => x * y) a a).sum

/-- One iteration of the best-match loop (lines 134-142 of recognize): the
running best `(best_match, best_similarity)` is replaced exactly when the
candidate similarity strictly exceeds the running best AND strictly exceeds
the threshold AND the identity is not in `recognized_in_image`. -/
def matchStep (sim : List ℚ → List ℚ → ℚ) (emb : List ℚ) (t : ℚ)
    (used : List String) (best : Option String × ℚ) (p : String × List ℚ) :
    Option String × ℚ :=
  let s := sim emb p.2
  if s > best.2 ∧ s > t ∧ p.1 ∉ used then (some p.1, s) else best

/-- The best-match loop (lines 131-145): fold over the gallery in iteration
order starting from `best_match = None`, `best_similarity = 0.0`. -/
def findBestMatch (sim : List ℚ → List ℚ → ℚ) (emb : List ℚ)
    (gallery : List (String × List ℚ)) (t : ℚ) (used : List String) :
    Option String × ℚ :=
  gallery.foldl (matchStep sim emb t used) (none, 0)

/-- The per-face loop of `process_single_image` (lines 118-160): `idx` is the
`enumerate` counter (it advances even for skipped faces), `used` is the
`recognized_in_image` set.  A face whose embedding has zero norm is skipped
with no record; otherwise one record is emitted and, on a match, the identity
is added to `used`. -/
def processFacesAux (sim : List ℚ → List ℚ → ℚ)
    (gallery : List (String × List ℚ)) (t : ℚ) (imgIdx : Nat) :
    Nat → List String → List Face → List DetectionRecord
  | _, _, [] => []
  | idx, used, f :: rest =>
    if 0 < normSqQ f.embedding then
      let bm := findBestMatch sim f.embedding gallery t used
      ⟨imgIdx, idx, bboxInts f.bbox, bm.2, bm.1⟩ ::
        processFacesAux sim gallery t imgIdx (idx + 1)
          (match bm.1 with
            | some n => n :: used
            | none => used) rest
    else
      processFacesAux sim gallery t imgIdx (idx + 1) used rest

/-- The `process_single_image` pipeline after face pooling: deduplicate the
pooled detections, then match each unique face against the gallery with a
fresh `recognized_in_image` set (line 115). -/
def processSingleImage (sim : List ℚ → List ℚ → ℚ) (allFaces : List Face)
    (gallery : List (String × List ℚ)) (t : ℚ) (imgIdx : Nat) :
    List DetectionRecord :=
  processFacesAux sim gallery t imgIdx 0 [] (dedup allFaces)

/-- Default `confidence_threshold` of `process_single_image` (line 46),
`0.45` exactly. -/
def defaultThreshold : ℚ := 9 / 10 / 2

example :
    processSingleImage (fun _ _ => 1) [⟨⟨0, 0, 2, 2⟩, [1]⟩]
      [("alice", [1])] defaultThreshold 0 =
    [⟨0, 0, [0, 0, 2, 2], 1, some "alice"⟩] := by
  norm_num [processSingleImage, processFacesAux, dedup, dedupStep, isDuplicate,
    findBestMatch, matchStep, normSqQ, bboxInts, truncQ, defaultThreshold]

example :
    processSingleImage (fun _ _ => 9 / 20)
      [⟨⟨0, 0, 2, 2⟩, [1]⟩] [("alice", [1])] (1 / 2) 0 =
    [⟨0, 0, [0, 0, 2, 2], 0, none⟩] := by
  norm_num [processSingleImage, processFacesAux, dedup, dedupStep, isDuplicate,
    findBestMatch, matchStep, normSqQ, bboxInts, truncQ]

noncomputable section RealNumerics

/-- Dot product `np.dot(a, b)` of two real vectors. -/
def dotR (a b : List ℝ) : ℝ :=
  (List.zipWith (fun x y => x * y) a b).sum

/-- Euclidean norm `np.linalg.norm(a)` of a real vector. -/
def npNorm (a : List ℝ) : ℝ :=
  Real.sqrt (dotR a a)

/-- The `cosine_similarity` function of recognize (lines 42-44):
`np.dot(a, b) / (np.linalg.norm(a) * np.linalg.norm(b))`. -/
def cosine_similarity (a b : List ℝ) : ℝ :=
  dotR a b / (npNorm a * npNorm b)

/-- The renormalization `embedding = embedding / np.linalg.norm(embedding)`
(line 125 of recognize, line 129 of train). -/
def renorm (a : List ℝ) : List ℝ :=
  a.map fun x => x / npNorm a

/-- Insertion into a sorted list, for the sort underlying `np.median`. -/
def insertSorted (x : ℝ) : List ℝ → List ℝ
  | [] => [x]
  | y :: ys => if x ≤ y then x :: y :: ys else y :: insertSorted x ys

/-- Ascending sort of real values. -/
def sortR (xs : List ℝ) : List ℝ :=
  xs.foldr insertSorted []

/-- Median of one list of values as `np.median` computes it: sort, take the
middle element when the count is odd, the mean of the two middle elements
when it is even. -/
def median1 (xs : List ℝ) : ℝ :=
  let s := sortR xs
  let n := s.length
  if n % 2 = 1 then s.getD (n / 2) 0
  else (s.getD (n / 2 - 1) 0 + s.getD (n / 2) 0) / 2

/-- Column `j` of a rectangular array stored as a list of rows. -/
def colJ (rows : List (List ℝ)) (j : Nat) : List ℝ :=
  rows.map fun r => r.getD j 0

/-- Componentwise median `np.median(arr, axis=0)` of a stack of embedding
vectors (line 128 of train). -/
def medianVec (rows : List (List ℝ)) : List ℝ :=
  (List.range (rows.headD []).length).map fun j => median1 (colJ rows j)

/-- Per-student aggregation of train's `main` (lines 122-137): when at least
one embedding was collected, the representative is the componentwise median
renormalized by its own norm; when none was collected, no entry is produced. -/
def aggregatePerson (embs : List (List ℝ)) : Option (List ℝ) :=
  if embs.isEmpty then none else some (renorm (medianVec embs))

/-- Python dict assignment `d[k] = v` on an association list kept in
insertion order: replace the value when the key is present, append otherwise. -/
def dictInsert (k : String) (v : List ℝ) (d : List (String × List ℝ)) :
    List (String × List ℝ) :=
  if d.any fun q => q.1 = k then
    d.map fun q => if q.1 = k then (k, v) else q
  else d ++ [(k, v)]

/-- The `face_dict` built by train's `main`: fold the students in folder
order, inserting `face_dict[student_folder.lower()] = median_embedding` only
for students with at least one collected embedding (line 131). -/
def buildGallery (students : List (String × List (List ℝ))) :
    List (String × List ℝ) :=
  students.foldl
    (fun d p =>
      match aggregatePerson p.2 with
      | some v => dictInsert p.1.toLower v d
      | none => d)
    []

end RealNumerics

example : cosine_similarity [1] [1] = 1 := by
  norm_num [cosine_similarity, dotR, npNorm]

example : medianVec [[1], [-1]] = [0] := by
  norm_num [medianVec, median1, colJ, sortR, insertSorted, List.range_succ]

example : aggregatePerson [[(1 : ℝ)], [-1]] = some [0] := by
  norm_num [aggregatePerson, renorm, medianVec, median1, colJ, sortR,
    insertSorted, npNorm, dotR, List.range_succ]

lemma dotR_nil_left (b : List ℝ) : dotR [] b = 0 := by
  simp [dotR]

lemma dotR_nil_right (a : List ℝ) : dotR a [] = 0 := by
  cases a <;> simp [dotR]

lemma dotR_cons (x y : ℝ) (a b : List ℝ) :
    dotR (x :: a) (y :: b) = x * y + dotR a b := by
  simp [dotR]

/-- A dot product of a vector with itself is a sum of squares, hence
nonnegative. -/
lemma dotR_self_nonneg (a : List ℝ) : 0 ≤ dotR a a := by
  induction a with
  | nil => simp [dotR]
  | cons x xs ih =>
    rw [dotR_cons]
    have : 0 ≤ x * x := mul_self_nonneg x
    linarith

/-- The dot product is symmetric. -/
lemma dotR_comm (a b : List ℝ) : dotR a b = dotR b a := by
  induction a generalizing b with
  | nil => rw [dotR_nil_left, dotR_nil_right]
  | cons x xs ih =>
    cases b with
    | nil => rw [dotR_nil_left, dotR_nil_right]
    | cons y ys => rw [dotR_cons, dotR_cons, ih, mul_comm]

lemma npNorm_nonneg (a : List ℝ) : 0 ≤ npNorm a :=
  Real.sqrt_nonneg _

/-- A vector with non-zero Euclidean norm has a non-zero self dot product. -/
lemma dotR_self_ne_zero (a : List ℝ) (h : npNorm a ≠ 0) : dotR a a ≠ 0 := by
  intro h0
  exact h (by rw [npNorm, h0, Real.sqrt_zero])

/-- Dividing both vectors componentwise by a scalar divides the dot product
by the square of the scalar (with the `x / 0 = 0` convention matching the
total division used throughout). -/
lemma dotR_map_div (c : ℝ) (a b : List ℝ) :
    dotR (a.map fun x => x / c) (b.map fun x => x / c) = dotR a b / (c * c) := by
  induction a generalizing b with
  | nil => simp [dotR_nil_left]
  | cons x xs ih =>
    cases b with
    | nil => simp [dotR_nil_right]
    | cons y ys =>
      rw [List.map_cons, List.map_cons, dotR_cons, dotR_cons, ih,
        div_mul_div_comm, div_add_div_same]

/-- Renormalization by a positive norm produces a unit-norm vector. -/
lemma npNorm_renorm (a : List ℝ) (h : 0 < npNorm a) : npNorm (renorm a) = 1 := by
  have hd : 0 ≤ dotR a a := dotR_self_nonneg a
  have hsq : npNorm a * npNorm a = dotR a a := Real.mul_self_sqrt hd
  have hdpos : 0 < dotR a a := by
    rw [← hsq]; exact mul_pos h h
  rw [npNorm, renorm, dotR_map_div, hsq, div_self (ne_of_gt hdpos),
    Real.sqrt_one]

/-- Sorting a single value yields that value. -/
lemma sortR_single (x : ℝ) : sortR [x] = [x] := rfl

/-- The median of a single value is that value. -/
lemma median1_single (x : ℝ) : median1 [x] = x := by
  simp [median1, sortR_single]

/-- Reading every position of a list in order reproduces the list. -/
lemma range_map_getD (l : List ℝ) :
    (List.range l.length).map (fun j => l.getD j 0) = l := by
  induction l with
  | nil => simp
  | cons x xs ih =>
    rw [List.length_cons, List.range_succ_eq_map, List.map_cons,
      List.map_map]
    have hfun : ((fun j => (x :: xs).getD j 0) ∘ Nat.succ) =
        fun j => xs.getD j 0 := by
      funext j; rfl
    rw [hfun, ih]
    rfl

/-- The componentwise median of a single row is that row. -/
lemma medianVec_single (e : List ℝ) : medianVec [e] = e := by
  unfold medianVec colJ
  simp only [List.headD_cons, List.map_cons, List.map_nil, median1_single]
  exact range_map_getD e

/-- Aggregating a single collected embedding stores exactly that embedding
renormalized by its own norm. -/
lemma aggregatePerson_single (e : List ℝ) :
    aggregatePerson [e] = some (renorm e) := by
  rw [aggregatePerson, if_neg (by simp), medianVec_single]

/-- Keys after a dict assignment: every key is an old key or the new key. -/
lemma mem_keys_dictInsert (L k : String) (v : List ℝ)
    (d : List (String × List ℝ)) (h : L ∈ (dictInsert k v d).map Prod.fst) :
    L ∈ d.map Prod.fst ∨ L = k := by
  unfold dictInsert at h
  by_cases hk : d.any fun q => q.1 = k
  · rw [if_pos hk, List.map_map] at h
    obtain ⟨q, hq, hval⟩ := List.mem_map.1 h
    by_cases hqk : q.1 = k
    · right
      simp only [Function.comp, hqk, if_pos rfl] at hval
      exact hval.symm
    · left
      simp only [Function.comp, if_neg hqk] at hval
      exact hval ▸ List.mem_map_of_mem Prod.fst hq
  · rw [if_neg hk, List.map_append] at h
    rcases List.mem_append.1 h with h | h
    · exact Or.inl h
    · right; simpa using h

/-- A student for which no embedding was collected is produced by no fold
step, so its (lower-cased) identity never enters `face_dict`. -/
lemma buildGallery_foldl_absent (L : String) :
    ∀ (students : List (String × List (List ℝ)))
      (d : List (String × List ℝ)),
      L ∉ d.map Prod.fst →
      (∀ p ∈ students, p.1.toLower = L → p.2 = []) →
      L ∉ (students.foldl
        (fun d p =>
          match aggregatePerson p.2 with
          | some v => dictInsert p.1.toLower v d
          | none => d) d).map Prod.fst := by
  intro students
  induction students with
  | nil => intro d hd _; simpa using hd
  | cons p rest ih =>
    intro d hd hall
    rw [List.foldl_cons]
    refine ih _ ?_ (fun q hq => hall q (List.mem_cons_of_mem p hq))
    rcases hagg : aggregatePerson p.2 with _ | v
    · exact hd
    · intro hmem
      rcases mem_keys_dictInsert L p.1.toLower v d hmem with h | h
      · exact hd h
      · have hne : p.2 ≠ [] := by
          intro hnil
          rw [aggregatePerson, if_pos (by simp [hnil])] at hagg
          exact Option.noConfusion hagg
        exact hne (hall p (List.mem_cons_self p rest) h.symm)
lemma overlapFrac_comm (b c : BBoxQ) : overlapFrac b c = overlapFrac c b := by
  unfold overlapFrac interArea
  rw [min_comm b.x2 c.x2, max_comm b.x1 c.x1, min_comm b.y2 c.y2,
    max_comm b.y1 c.y1, min_comm (boxArea b) (boxArea c)]

/-- Invariant of the dedup fold: if the accepted list is pairwise
non-duplicate (in both orders), it stays so after folding any further
candidates, because a candidate overlapping an accepted face by more than
`0.7` is dropped. -/
lemma dedup_foldl_pairwise :
    ∀ (faces acc : List Face),
      acc.Pairwise (fun a b => overlapFrac a.bbox b.bbox ≤ 7 / 10 ∧
        overlapFrac b.bbox a.bbox ≤ 7 / 10) →
      (faces.foldl dedupStep acc).Pairwise
        (fun a b => overlapFrac a.bbox b.bbox ≤ 7 / 10 ∧
          overlapFrac b.bbox a.bbox ≤ 7 / 10) := by
  intro faces
  induction faces with
  | nil => intro acc h; simpa using h
  | cons f rest ih =>
    intro acc h
    rw [List.foldl_cons]
    refine ih (dedupStep acc f) ?_
    unfold dedupStep
    by_cases hd : isDuplicate f acc
    · rwa [if_pos hd]
    · rw [if_neg hd]
      rw [List.pairwise_append]
      refine ⟨h, List.pairwise_singleton _ _, ?_⟩
      intro a ha b hb
      have hbf : b = f := by simpa using hb
      rw [hbf]
      have hna : ¬ overlapFrac f.bbox a.bbox > 7 / 10 := by
        intro hgt
        exact hd (List.any_eq_true.2 ⟨a, ha, decide_eq_true hgt⟩)
      have hle : overlapFrac f.bbox a.bbox ≤ 7 / 10 := not_lt.1 hna
      exact ⟨(overlapFrac_comm a.bbox f.bbox) ▸ hle, hle⟩

/-- The dedup fold emits a subsequence of the accepted prefix followed by the
remaining candidates: accepted faces are kept first-seen, in order. -/
lemma dedup_foldl_sublist :
    ∀ (faces acc : List Face),
      (faces.foldl dedupStep acc).Sublist (acc ++ faces) := by
  intro faces
  induction faces with
  | nil => intro acc; simp
  | cons f rest ih =>
    intro acc
    rw [List.foldl_cons]
    unfold dedupStep
    by_cases hd : isDuplicate f acc
    · rw [if_pos hd]
      exact (ih acc).trans
        ((List.sublist_cons_self f rest).append_left acc)
    · rw [if_neg hd]
      have := ih (acc ++ [f])
      rwa [List.append_assoc, List.singleton_append] at this

/-- Invariant of the best-match fold: whichever gallery suffix is still to be
scanned, the running best `(best_match, best_similarity)` always records an
unused identity with similarity strictly above the threshold (when matched),
similarity `0.0` when unmatched, and a nonnegative similarity. -/
lemma foldlMatch_inv (sim : List ℚ → List ℚ → ℚ) (emb : List ℚ) (t : ℚ)
    (used : List String) :
    ∀ (g : List (String × List ℚ)) (b : Option String × ℚ),
      ((∀ n, b.1 = some n → n ∉ used ∧ t < b.2) ∧ (b.1 = none → b.2 = 0) ∧
        0 ≤ b.2) →
      ((∀ n, (g.foldl (matchStep sim emb t used) b).1 = some n →
          n ∉ used ∧ t < (g.foldl (matchStep sim emb t used) b).2) ∧
        ((g.foldl (matchStep sim emb t used) b).1 = none →
          (g.foldl (matchStep sim emb t used) b).2 = 0) ∧
        0 ≤ (g.foldl (matchStep sim emb t used) b).2) := by
  intro g
  induction g with
  | nil => intro b hb; simpa using hb
  | cons p g ih =>
    intro b hb
    rw [List.foldl_cons]
    refine ih (matchStep sim emb t used b p) ?_
    obtain ⟨h1, h2, h3⟩ := hb
    unfold matchStep
    dsimp only
    by_cases hcond : sim emb p.2 > b.2 ∧ sim emb p.2 > t ∧ p.1 ∉ used
    · rw [if_pos hcond]
      obtain ⟨hgt, hthr, hfree⟩ := hcond
      refine ⟨?_, ?_, le_of_lt (lt_of_le_of_lt h3 hgt)⟩
      · intro n hn
        obtain rfl : p.1 = n := by simpa using hn
        exact ⟨hfree, hthr⟩
      · intro hnone; simp at hnone
    · rw [if_neg hcond]
      exact ⟨h1, h2, h3⟩

/-- Properties of the final best match (lines 131-145): a matched identity is
unused and its similarity strictly exceeds the threshold; an unmatched result
carries similarity `0.0`; the similarity is never negative. -/
lemma findBestMatch_inv (sim : List ℚ → List ℚ → ℚ) (emb : List ℚ)
    (gallery : List (String × List ℚ)) (t : ℚ) (used : List String) :
    (∀ n, (findBestMatch sim emb gallery t used).1 = some n →
        n ∉ used ∧ t < (findBestMatch sim emb gallery t used).2) ∧
      ((findBestMatch sim emb gallery t used).1 = none →
        (findBestMatch sim emb gallery t used).2 = 0) ∧
      0 ≤ (findBestMatch sim emb gallery t used).2 := by
  refine foldlMatch_inv sim emb t used gallery (none, 0) ?_
  refine ⟨?_, ?_, le_refl 0⟩
  · intro n hn; simp at hn
  · intro _; rfl

/-- Per-record properties of the per-face loop: every emitted record has a
nonnegative confidence, an unmatched record has confidence `0.0`, and a
matched record names an identity outside the incoming `recognized_in_image`
set with confidence strictly above the threshold. -/
lemma processFacesAux_records (sim : List ℚ → List ℚ → ℚ)
    (gallery : List (String × List ℚ)) (t : ℚ) (imgIdx : Nat) :
    ∀ (faces : List Face) (idx : Nat) (used : List String),
      ∀ r ∈ processFacesAux sim gallery t imgIdx idx used faces,
        0 ≤ r.confidence ∧ (r.studentId = none → r.confidence = 0) ∧
          (∀ n, r.studentId = some n → n ∉ used ∧ t < r.confidence) := by
  intro faces
  induction faces with
  | nil => intro idx used r hr; simp [processFacesAux] at hr
  | cons f rest ih =>
    intro idx used r hr
    rw [processFacesAux] at hr
    by_cases hv : 0 < normSqQ f.embedding
    · rw [if_pos hv] at hr
      rcases List.mem_cons.1 hr with hr | hr
      · subst hr
        obtain ⟨hm, hu, hnn⟩ := findBestMatch_inv sim f.embedding gallery t used
        exact ⟨hnn, hu, hm⟩
      · have hres := ih (idx + 1)
          (match (findBestMatch sim f.embedding gallery t used).1 with
            | some n => n :: used
            | none => used) r hr
        refine ⟨hres.1, hres.2.1, ?_⟩
        intro n hn
        obtain ⟨hnu, hconf⟩ := hres.2.2 n hn
        refine ⟨?_, hconf⟩
        intro hmem
        apply hnu
        rcases hfb : (findBestMatch sim f.embedding gallery t used).1 with _ | m
        · simpa [hfb] using hmem
        · simp only [hfb]
          exact List.mem_cons_of_mem m hmem
    · rw [if_neg hv] at hr
      exact ih (idx + 1) used r hr

/-- The records of one image have pairwise distinct identities: a match adds
its identity to `recognized_in_image`, and every later record's identity is
outside that set. -/
lemma processFacesAux_pairwise (sim : List ℚ → List ℚ → ℚ)
    (gallery : List (String × List ℚ)) (t : ℚ) (imgIdx : Nat) :
    ∀ (faces : List Face) (idx : Nat) (used : List String),
      (processFacesAux sim gallery t imgIdx idx used faces).Pairwise
        (fun r1 r2 => ∀ n1 n2, r1.studentId = some n1 →
          r2.studentId = some n2 → n1 ≠ n2) := by
  intro faces
  induction faces with
  | nil => intro idx used; simp [processFacesAux]
  | cons f rest ih =>
    intro idx used
    rw [processFacesAux]
    by_cases hv : 0 < normSqQ f.embedding
    · rw [if_pos hv]
      refine List.pairwise_cons.2 ⟨?_, ih (idx + 1) _⟩
      intro r2 hr2 n1 n2 h1 h2
      rcases hfb : (findBestMatch sim f.embedding gallery t used).1 with _ | m
      · rw [hfb] at h1; simp at h1
      · rw [hfb] at h1
        have h1' : m = n1 := by simpa using h1
        rw [hfb] at hr2
        have hres := processFacesAux_records sim gallery t imgIdx rest
          (idx + 1) (m :: used) r2 hr2
        obtain ⟨hnu, _⟩ := hres.2.2 n2 h2
        intro heq
        exact hnu (List.mem_cons.2 (Or.inl (h1'.trans heq).symm))
    · rw [if_neg hv]
      exact ih (idx + 1) used

/-- One record is emitted per face whose embedding passes the nonzero-norm
guard; faces failing the guard are skipped with no record. -/
lemma processFacesAux_length (sim : List ℚ → List ℚ → ℚ)
    (gallery : List (String × List ℚ)) (t : ℚ) (imgIdx : Nat) :
    ∀ (faces : List Face) (idx : Nat) (used : List String),
      (processFacesAux sim gallery t imgIdx idx used faces).length =
        faces.countP (fun f => decide (0 < normSqQ f.embedding)) := by
  intro faces
  induction faces with
  | nil => intro idx used; simp [processFacesAux]
  | cons f rest ih =>
    intro idx used
    rw [processFacesAux, List.countP_cons]
    by_cases hv : 0 < normSqQ f.embedding
    · rw [if_pos hv]
      simp [hv, ih]
    · rw [if_neg hv]
      simp [hv, ih]

/-- With an empty gallery the best-match fold never moves off its initial
state, so every record is unmatched with confidence `0.0`. -/
lemma processFacesAux_nil_gallery (sim : List ℚ → List ℚ → ℚ) (t : ℚ)
    (imgIdx : Nat) :
    ∀ (faces : List Face) (idx : Nat) (used : List String),
      ∀ r ∈ processFacesAux sim [] t imgIdx idx used faces,
        r.confidence = 0 ∧ r.studentId = none := by
  intro faces
  induction faces with
  | nil => intro idx used r hr; simp [processFacesAux] at hr
  | cons f rest ih =>
    intro idx used r hr
    rw [processFacesAux] at hr
    by_cases hv : 0 < normSqQ f.embedding
    · rw [if_pos hv] at hr
      have hfb : findBestMatch sim f.embedding [] t used = (none, 0) := rfl
      rcases List.mem_cons.1 hr with hr | hr
      · subst hr; rw [hfb]; exact ⟨rfl, rfl⟩
      · rw [hfb] at hr
        exact ih (idx + 1) used r hr
    · rw [if_neg hv] at hr
      exact ih (idx + 1) used r hr

/-- C1: for every image and every gallery, the matcher never assigns the same
identity to two DetectionRecords produced from that image: any two emitted
records of one image that both carry a non-null identity carry different
identities, because `recognized_in_image` starts empty for each image and an
accepted identity is excluded from matching for all later faces. -/
theorem matcher_no_identity_reuse (sim : List ℚ → List ℚ → ℚ)
    (allFaces : List Face) (gallery : List (String × List ℚ)) (t : ℚ)
    (imgIdx : Nat) :
    (processSingleImage sim allFaces gallery t imgIdx).Pairwise
      (fun r1 r2 => ∀ n1 n2, r1.studentId = some n1 →
        r2.studentId = some n2 → n1 ≠ n2) :=
  processFacesAux_pairwise sim gallery t imgIdx (dedup allFaces) 0 []

/-- C2 counterexample: with threshold `0.5` and a single gallery entry of
similarity `0.45` to the (valid) face, the emitted record is unmatched but
its confidence field is `0.0`, not `0.45`: the running best similarity is
only updated by values strictly above the threshold (lines 138-142), so a
below-threshold best similarity is never reported. -/
theorem subthreshold_confidence_is_zero :
    processSingleImage (fun _ _ => 9 / 20) [⟨⟨0, 0, 2, 2⟩, [1]⟩]
        [("alice", [1])] (1 / 2) 0 =
      [⟨0, 0, [0, 0, 2, 2], 0, none⟩] ∧ ((9 : ℚ) / 20 ≠ 0) := by
  constructor
  · norm_num [processSingleImage, processFacesAux, dedup, dedupStep,
      isDuplicate, findBestMatch, matchStep, normSqQ, bboxInts, truncQ]
  · norm_num

/-- C2 (amended): for every face with a valid (positive-norm) embedding
exactly one DetectionRecord is emitted regardless of match outcome, and an
unmatched record's confidence is `0.0` — the confidence equals the best
similarity that passed the acceptance test (above threshold, unused
identity), not the best similarity overall. -/
theorem one_record_per_valid_face (sim : List ℚ → List ℚ → ℚ)
    (allFaces : List Face) (gallery : List (String × List ℚ)) (t : ℚ)
    (imgIdx : Nat) :
    (processSingleImage sim allFaces gallery t imgIdx).length =
      (dedup allFaces).countP (fun f => decide (0 < normSqQ f.embedding)) ∧
    ∀ r ∈ processSingleImage sim allFaces gallery t imgIdx,
      r.studentId = none → r.confidence = 0 := by
  refine ⟨processFacesAux_length sim gallery t imgIdx (dedup allFaces) 0 [],
    fun r hr => ?_⟩
  exact (processFacesAux_records sim gallery t imgIdx (dedup allFaces)
    0 [] r hr).2.1

/-- C3: in the deduplicated output of one image's pooled detections, any two
accepted faces (taken in either order) have bounding-box overlap ratio at
most `0.7`, and the accepted faces form a subsequence of the pooled input:
the first-seen detection of each duplicate cluster is the one kept. -/
theorem dedup_pairwise_overlap (faces : List Face) :
    (dedup faces).Pairwise
      (fun a b => overlapFrac a.bbox b.bbox ≤ 7 / 10 ∧
        overlapFrac b.bbox a.bbox ≤ 7 / 10) ∧
    (dedup faces).Sublist faces := by
  constructor
  · exact dedup_foldl_pairwise faces [] List.Pairwise.nil
  · simpa using dedup_foldl_sublist faces []

/-- C4: for every emitted DetectionRecord, a non-null identity comes with a
confidence strictly above the threshold, and a null identity comes with a
confidence at most the threshold (assuming a nonnegative threshold, under
which an unmatched record's confidence `0.0` is at most the threshold). -/
theorem matched_above_unmatched_below (sim : List ℚ → List ℚ → ℚ)
    (allFaces : List Face) (gallery : List (String × List ℚ)) (t : ℚ)
    (imgIdx : Nat) (ht : 0 ≤ t) :
    ∀ r ∈ processSingleImage sim allFaces gallery t imgIdx,
      (∀ n, r.studentId = some n → t < r.confidence) ∧
      (r.studentId = none → r.confidence ≤ t) := by
  intro r hr
  have h := processFacesAux_records sim gallery t imgIdx (dedup allFaces)
    0 [] r hr
  refine ⟨fun n hn => (h.2.2 n hn).2, fun hn => ?_⟩
  rw [h.2.1 hn]
  exact ht

/-- C6: matching against an empty gallery emits every valid-embedding face as
unmatched with identity null and confidence exactly `0.0`; the matcher loop
treats the empty gallery as yielding no matches, not as an error. -/
theorem empty_gallery_all_unmatched (sim : List ℚ → List ℚ → ℚ)
    (allFaces : List Face) (t : ℚ) (imgIdx : Nat) :
    (∀ r ∈ processSingleImage sim allFaces [] t imgIdx,
      r.confidence = 0 ∧ r.studentId = none) ∧
    (processSingleImage sim allFaces [] t imgIdx).length =
      (dedup allFaces).countP (fun f => decide (0 < normSqQ f.embedding)) := by
  exact ⟨fun r hr => processFacesAux_nil_gallery sim t imgIdx
      (dedup allFaces) 0 [] r hr,
    processFacesAux_length sim [] t imgIdx (dedup allFaces) 0 []⟩

/-- C7: the tie-break is deterministic by gallery iteration order.  First, a
later gallery entry whose similarity does not strictly exceed the current
best similarity (in particular an equal-similarity entry) never displaces the
running best, so the fold's result is as if the entry were absent.  Second,
with exactly two identities attaining the same above-threshold similarity,
the first one in iteration order is selected with that similarity. -/
theorem tie_break_first_wins :
    (∀ (sim : List ℚ → List ℚ → ℚ) (emb : List ℚ)
      (g1 g2 : List (String × List ℚ)) (n2 : String) (e2 : List ℚ) (t : ℚ)
      (used : List String),
      sim emb e2 ≤ (findBestMatch sim emb g1 t used).2 →
      findBestMatch sim emb (g1 ++ (n2, e2) :: g2) t used =
        findBestMatch sim emb (g1 ++ g2) t used) ∧
    (∀ (sim : List ℚ → List ℚ → ℚ) (emb : List ℚ) (n1 : String)
      (e1 : List ℚ) (n2 : String) (e2 : List ℚ) (t : ℚ)
      (used : List String) (s : ℚ),
      0 ≤ t → sim emb e1 = s → sim emb e2 = s → t < s →
      n1 ∉ used → n2 ∉ used →
      findBestMatch sim emb [(n1, e1), (n2, e2)] t used = (some n1, s)) := by
  constructor
  · intro sim emb g1 g2 n2 e2 t used h
    unfold findBestMatch at h ⊢
    rw [List.foldl_append, List.foldl_append, List.foldl_cons]
    have hstep : matchStep sim emb t used
        (g1.foldl (matchStep sim emb t used) (none, 0)) (n2, e2) =
        g1.foldl (matchStep sim emb t used) (none, 0) := by
      unfold matchStep
      dsimp only
      rw [if_neg]
      rintro ⟨hgt, _, _⟩
      exact absurd hgt (not_lt.2 h)
    rw [hstep]
  · intro sim emb n1 e1 n2 e2 t used s ht h1 h2 hs hu1 hu2
    unfold findBestMatch
    rw [List.foldl_cons, List.foldl_cons, List.foldl_nil]
    have hfirst : matchStep sim emb t used (none, 0) (n1, e1) = (some n1, s) := by
      unfold matchStep
      dsimp only
      rw [h1, if_pos ⟨lt_of_le_of_lt ht hs, hs, hu1⟩]
    rw [hfirst]
    unfold matchStep
    dsimp only
    rw [h2, if_neg]
    rintro ⟨hgt, _, _⟩
    exact absurd hgt (lt_irrefl s)

/-- C8: in exact arithmetic, the cosine similarity of a vector of non-zero
norm with itself is exactly `1`, and cosine similarity is symmetric in its
two arguments. -/
theorem cosine_self_one_and_symm :
    (∀ a : List ℝ, npNorm a ≠ 0 → cosine_similarity a a = 1) ∧
    (∀ a b : List ℝ, cosine_similarity a b = cosine_similarity b a) := by
  constructor
  · intro a ha
    have hd : dotR a a ≠ 0 := dotR_self_ne_zero a ha
    rw [cosine_similarity, npNorm, Real.mul_self_sqrt (dotR_self_nonneg a)]
    exact div_self hd
  · intro a b
    rw [cosine_similarity, cosine_similarity, dotR_comm, mul_comm]

/-- C9: every emitted DetectionRecord has nonnegative confidence: the best
similarity accumulator starts at `0.0` and is only ever increased, so a face
whose best gallery similarity is negative is reported with confidence `0.0`,
never a negative value. -/
theorem confidence_nonneg (sim : List ℚ → List ℚ → ℚ) (allFaces : List Face)
    (gallery : List (String × List ℚ)) (t : ℚ) (imgIdx : Nat) :
    ∀ r ∈ processSingleImage sim allFaces gallery t imgIdx,
      0 ≤ r.confidence := fun r hr =>
  (processFacesAux_records sim gallery t imgIdx (dedup allFaces)
    0 [] r hr).1

/-- C10: the divisor of `cosine_similarity` is never zero in the matching
loop: the matcher only compares embeddings that passed the positive-norm
guard of line 124 (and were renormalized, which yields a unit-norm vector),
so under the precondition that a gallery embedding has non-zero norm, the
product of norms dividing the dot product is non-zero. -/
theorem cosine_divisor_nonzero (e g : List ℝ) (he : 0 < npNorm e)
    (hg : npNorm g ≠ 0) : npNorm (renorm e) * npNorm g ≠ 0 := by
  rw [npNorm_renorm e he, one_mul]
  exact hg

/-- C5 counterexample: the componentwise median of the two collected
embeddings `[1]` and `[-1]` is the zero vector; dividing it by its own zero
norm stores a degenerate representative whose norm is not `1`, refuting the
claim that at least one collected embedding always yields a unit-norm
representative. -/
theorem degenerate_median_not_unit :
    aggregatePerson [[(1 : ℝ)], [-1]] = some [0] ∧
      npNorm ([0] : List ℝ) ≠ 1 := by
  constructor
  · norm_num [aggregatePerson, renorm, medianVec, median1, colJ, sortR,
      insertSorted, npNorm, dotR, List.range_succ]
  · norm_num [npNorm, dotR]

/-- C5 (amended): aggregating a single collected embedding stores exactly
that embedding renormalized by its own norm; an identity all of whose
enrollment rows are empty is absent from the output gallery; and whenever at
least one embedding was collected AND the componentwise median has non-zero
norm, the stored representative has unit norm (a zero-norm median produces a
degenerate entry instead). -/
theorem enrollment_aggregate_props :
    (∀ e : List ℝ, aggregatePerson [e] = some (renorm e)) ∧
    (∀ (students : List (String × List (List ℝ))) (L : String),
      (∀ p ∈ students, p.1.toLower = L → p.2 = []) →
      L ∉ (buildGallery students).map Prod.fst) ∧
    (∀ (embs : List (List ℝ)) (v : List ℝ),
      aggregatePerson embs = some v → npNorm (medianVec embs) ≠ 0 →
      npNorm v = 1) := by
  refine ⟨aggregatePerson_single, ?_, ?_⟩
  · intro students L hall
    exact buildGallery_foldl_absent L students [] (by simp) hall
  · intro embs v hv hnz
    rw [aggregatePerson] at hv
    by_cases hemp : embs.isEmpty
    · rw [if_pos hemp] at hv
      exact Option.noConfusion hv
    · rw [if_neg hemp] at hv
      have hv' : renorm (medianVec embs) = v := by
        injection hv
      have hpos : 0 < npNorm (medianVec embs) :=
        lt_of_le_of_ne (npNorm_nonneg _) (Ne.symm hnz)
      rw [← hv']
      exact npNorm_renorm _ hpos

theorem matcher_no_identity_reuse_witness : "alice" ≠ "bob" := by
  have h := matcher_no_identity_reuse (fun e g => if e = g then 1 else 0)
    [⟨⟨0, 0, 1, 1⟩, [1]⟩, ⟨⟨10, 10, 11, 11⟩, [2]⟩]
    [("alice", [1]), ("bob", [2])] (9 / 20) 0
  have hout : processSingleImage (fun e g => if e = g then 1 else 0)
      [⟨⟨0, 0, 1, 1⟩, [1]⟩, ⟨⟨10, 10, 11, 11⟩, [2]⟩]
      [("alice", [1]), ("bob", [2])] (9 / 20) 0 =
      [⟨0, 0, [0, 0, 1, 1], 1, some "alice"⟩,
        ⟨0, 1, [10, 10, 11, 11], 1, some "bob"⟩] := by
    have hab : ¬ ("alice" = "bob") := by decide
    have hba : ¬ ("bob" = "alice") := by decide
    norm_num [processSingleImage, processFacesAux, dedup, dedupStep,
      isDuplicate, overlapFrac, interArea, boxArea, findBestMatch, matchStep,
      normSqQ, bboxInts, truncQ, min_def, max_def, hab, hba]
  rw [hout] at h
  exact (List.pairwise_cons.1 h).1 _ (List.mem_cons_self _ _)
    "alice" "bob" rfl rfl

theorem one_record_per_valid_face_witness :
    (processSingleImage (fun _ _ => 9 / 20) [⟨⟨0, 0, 2, 2⟩, [1]⟩]
        [("alice", [1])] (1 / 2) 0).length = 1 ∧
    (⟨0, 0, [0, 0, 2, 2], 0, none⟩ : DetectionRecord).confidence = 0 := by
  have hout : processSingleImage (fun _ _ => 9 / 20) [⟨⟨0, 0, 2, 2⟩, [1]⟩]
      [("alice", [1])] (1 / 2) 0 = [⟨0, 0, [0, 0, 2, 2], 0, none⟩] := by
    norm_num [processSingleImage, processFacesAux, dedup, dedupStep,
      isDuplicate, findBestMatch, matchStep, normSqQ, bboxInts, truncQ]
  constructor
  · rw [(one_record_per_valid_face (fun _ _ => 9 / 20) [⟨⟨0, 0, 2, 2⟩, [1]⟩]
      [("alice", [1])] (1 / 2) 0).1]
    norm_num [dedup, dedupStep, isDuplicate, normSqQ]
  · refine (one_record_per_valid_face (fun _ _ => 9 / 20) [⟨⟨0, 0, 2, 2⟩, [1]⟩]
      [("alice", [1])] (1 / 2) 0).2 _ ?_ rfl
    rw [hout]
    exact List.mem_cons_self _ _

theorem matched_above_unmatched_below_witness :
    (9 : ℚ) / 20 <
      (⟨0, 0, [0, 0, 2, 2], 1, some "alice"⟩ : DetectionRecord).confidence := by
  have hout : processSingleImage (fun _ _ => 1) [⟨⟨0, 0, 2, 2⟩, [1]⟩]
      [("alice", [1])] (9 / 20) 0 =
      [⟨0, 0, [0, 0, 2, 2], 1, some "alice"⟩] := by
    norm_num [processSingleImage, processFacesAux, dedup, dedupStep,
      isDuplicate, findBestMatch, matchStep, normSqQ, bboxInts, truncQ]
  refine (matched_above_unmatched_below (fun _ _ => 1) [⟨⟨0, 0, 2, 2⟩, [1]⟩]
    [("alice", [1])] (9 / 20) 0 (by norm_num) _ ?_).1 "alice" rfl
  rw [hout]
  exact List.mem_cons_self _ _

theorem empty_gallery_all_unmatched_witness :
    ((⟨0, 0, [0, 0, 2, 2], 0, none⟩ : DetectionRecord).confidence = 0 ∧
      (⟨0, 0, [0, 0, 2, 2], 0, none⟩ : DetectionRecord).studentId = none) ∧
    (processSingleImage (fun _ _ => 1) [⟨⟨0, 0, 2, 2⟩, [1]⟩] []
      (9 / 20) 0).length = 1 := by
  have hout : processSingleImage (fun _ _ => 1) [⟨⟨0, 0, 2, 2⟩, [1]⟩] []
      (9 / 20) 0 = [⟨0, 0, [0, 0, 2, 2], 0, none⟩] := by
    norm_num [processSingleImage, processFacesAux, dedup, dedupStep,
      isDuplicate, findBestMatch, matchStep, normSqQ, bboxInts, truncQ]
  constructor
  · refine (empty_gallery_all_unmatched (fun _ _ => 1) [⟨⟨0, 0, 2, 2⟩, [1]⟩]
      (9 / 20) 0).1 _ ?_
    rw [hout]
    exact List.mem_cons_self _ _
  · rw [(empty_gallery_all_unmatched (fun _ _ => 1) [⟨⟨0, 0, 2, 2⟩, [1]⟩]
      (9 / 20) 0).2]
    norm_num [dedup, dedupStep, isDuplicate, normSqQ]

theorem tie_break_first_wins_witness :
    findBestMatch (fun _ _ => 1) [1]
        ([("alice", [2])] ++ ("bob", [3]) :: []) (9 / 20) [] =
      findBestMatch (fun _ _ => 1) [1] ([("alice", [2])] ++ []) (9 / 20) [] ∧
    findBestMatch (fun _ _ => 1) [1] [("alice", [2]), ("bob", [3])]
        (9 / 20) [] = (some "alice", 1) := by
  constructor
  · refine tie_break_first_wins.1 (fun _ _ => 1) [1] [("alice", [2])] []
      "bob" [3] (9 / 20) [] ?_
    norm_num [findBestMatch, matchStep]
  · exact tie_break_first_wins.2 (fun _ _ => 1) [1] "alice" [2] "bob" [3]
      (9 / 20) [] 1 (by norm_num) rfl rfl (by norm_num) (by simp) (by simp)

theorem cosine_self_one_and_symm_witness :
    npNorm [(1 : ℝ)] ≠ 0 ∧ cosine_similarity [(1 : ℝ)] [1] = 1 := by
  have h1 : npNorm [(1 : ℝ)] ≠ 0 := by norm_num [npNorm, dotR]
  exact ⟨h1, cosine_self_one_and_symm.1 [1] h1⟩

theorem confidence_nonneg_witness :
    (0 : ℚ) ≤
      (⟨0, 0, [0, 0, 2, 2], 1, some "alice"⟩ : DetectionRecord).confidence := by
  have hout : processSingleImage (fun _ _ => 1) [⟨⟨0, 0, 2, 2⟩, [1]⟩]
      [("alice", [1])] (9 / 20) 0 =
      [⟨0, 0, [0, 0, 2, 2], 1, some "alice"⟩] := by
    norm_num [processSingleImage, processFacesAux, dedup, dedupStep,
      isDuplicate, findBestMatch, matchStep, normSqQ, bboxInts, truncQ]
  refine confidence_nonneg (fun _ _ => 1) [⟨⟨0, 0, 2, 2⟩, [1]⟩]
    [("alice", [1])] (9 / 20) 0 _ ?_
  rw [hout]
  exact List.mem_cons_self _ _

theorem cosine_divisor_nonzero_witness :
    npNorm (renorm [(1 : ℝ)]) * npNorm [(1 : ℝ)] ≠ 0 := by
  have h : (0 : ℝ) < npNorm [(1 : ℝ)] := by norm_num [npNorm, dotR]
  exact cosine_divisor_nonzero [1] [1] h (ne_of_gt h)

theorem enrollment_aggregate_props_witness :
    aggregatePerson [[(1 : ℝ)]] = some (renorm [1]) ∧
    "bob" ∉ (buildGallery [("bob", [])]).map Prod.fst ∧
    npNorm (renorm [(1 : ℝ)]) = 1 := by
  refine ⟨enrollment_aggregate_props.1 [1],
    enrollment_aggregate_props.2.1 [("bob", [])] "bob" ?_, ?_⟩
  · intro p hp _
    have hpv : p = ("bob", []) := by simpa using hp
    rw [hpv]
  · have hmed : npNorm (medianVec [[(1 : ℝ)]]) ≠ 0 := by
      rw [medianVec_single]
      norm_num [npNorm, dotR]
    have h := enrollment_aggregate_props.2.2 [[(1 : ℝ)]]
      (renorm (medianVec [[(1 : ℝ)]])) ?_ hmed
    · rwa [medianVec_single] at h
    · rw [aggregatePerson, if_neg (by simp)]
